import Mathlib

/-!
Shallow embedding of the per-subscriber filtering core of the repository
(file `src/tracing-subscriber/src/filter/subscriber_filters/mod.rs`),
together with theorems settling the specification's claims about it.

Machine integers (`u64`) are embedded as `Nat`, with the well-formedness
bound `< 2 ^ 64` carried as a hypothesis where the claim depends on it.
Rust's `!mask` (bitwise complement on `u64`) is embedded as
`U64_MAX ^^^ mask`, which agrees with the 64-bit complement on all
values `< 2 ^ 64`.

Effectful closures (`impl FnOnce()` arguments and calls into the wrapped
subscriber) are embedded as explicit state transformers over an abstract
state type `σ`, so that "the closure was invoked" is visible as the state
component of the result.
-/

namespace SubscriberFilters

/-- The value `u64::MAX`, i.e. all 64 bits set. -/
def U64_MAX : Nat := 2 ^ 64 - 1

/-- Embedding of `FilterId(u64)`: the stored value is the bitmask itself. -/
structure FilterId where
  mask : Nat
deriving DecidableEq, Repr

/-- Embedding of `FilterId::disabled`, the all-ones sentinel. -/
def FilterId.disabled : FilterId :=
  ⟨U64_MAX⟩

/-- Embedding of `FilterId::new(id)`. The Rust function asserts `id < 64`
and aborts otherwise; the fatal assertion is embedded as `Option.none`. -/
def FilterId.new (id : Nat) : Option FilterId :=
  if id < 64 then some ⟨1 <<< id⟩ else none

/-- Embedding of `FilterId::and` (the union operation on filter ids):
if the receiver is the disabled sentinel, return the other id unchanged,
otherwise bitwise OR. -/
def FilterId.and (self other : FilterId) : FilterId :=
  if self.mask = FilterId.disabled.mask then ⟨other.mask⟩
  else ⟨self.mask ||| other.mask⟩

/-- Decidable check that an id is a single-bit mask, i.e. one of the masks
produced by `FilterId.new`. -/
def FilterId.single_bit (id : FilterId) : Bool :=
  (List.range 64).any (fun i => id.mask == 1 <<< i)

/-- Embedding of `FilterMap`, the 64-bit set of filters that disabled the
current span or event (bit set = disabled). -/
structure FilterMap where
  bits : Nat
deriving DecidableEq, Repr

/-- Embedding of `FilterMap::new`, the all-zero map. -/
def FilterMap.new : FilterMap :=
  ⟨0⟩

/-- Embedding of `FilterMap::set`: no-op when the mask is `u64::MAX`;
otherwise clear the mask's bits if `enabled`, set them if not. -/
def FilterMap.set (self : FilterMap) (id : FilterId) (enabled : Bool) : FilterMap :=
  if id.mask = U64_MAX then self
  else if enabled then ⟨self.bits &&& (U64_MAX ^^^ id.mask)⟩
  else ⟨self.bits ||| id.mask⟩

/-- Embedding of `FilterMap::is_enabled`: true iff none of the mask's bits
are set in the map. -/
def FilterMap.is_enabled (self : FilterMap) (id : FilterId) : Bool :=
  self.bits &&& id.mask == 0

/-- Embedding of `FilterMap::any_enabled`: true iff the map is not
literally all ones. -/
def FilterMap.any_enabled (self : FilterMap) : Bool :=
  self.bits != U64_MAX

/-- Modelled from the spec: the three-valued per-callsite `Interest` hint
(ALWAYS / NEVER / SOMETIMES) is defined in the external `tracing-core`
crate, which is not part of this repository; the spec's glossary describes
it as exactly a three-valued caching hint. -/
inductive Interest where
  | never
  | sometimes
  | always
deriving DecidableEq, Repr

/-- Modelled from the spec: the `is_always` query on an `Interest`. -/
def Interest.is_always : Interest → Bool
  | .always => true
  | _ => false

/-- Modelled from the spec: the `is_never` query on an `Interest`. -/
def Interest.is_never : Interest → Bool
  | .never => true
  | _ => false

/-- Embedding of the thread-local `FilterState` (release build: the
debug-only counters are compiled out, so only the live `FilterMap` and the
in-progress aggregated `Interest` remain). -/
structure FilterState where
  enabled : FilterMap
  interest : Option Interest
deriving DecidableEq, Repr

/-- Embedding of `FilterState::set`: record one filter's decision into the
live map. -/
def FilterState.set (self : FilterState) (filter : FilterId) (enabled : Bool) : FilterState :=
  { self with enabled := self.enabled.set filter enabled }

/-- Embedding of `FilterState::add_interest`: combine one filter's
callsite `Interest` into the aggregate recorded during the current
interest pass. -/
def FilterState.add_interest (self : FilterState) (interest : Interest) : FilterState :=
  match self.interest with
  | some curr =>
    if (curr.is_always && !interest.is_always) || (curr.is_never && !interest.is_never) then
      { self with interest := some Interest.sometimes }
    else
      { self with interest := some curr }
  | none => { self with interest := some interest }

/-- Embedding of `FilterState::did_enable`: run the continuation `f` if
the filter did not disable the current span/event, otherwise clear the
filter's bit (consume the decision) and skip `f`. The continuation is a
state transformer over an abstract `σ`, so it cannot itself modify the
map. -/
def FilterState.did_enable {σ : Type} (self : FilterState) (filter : FilterId)
    (f : σ → σ) (s : σ) : FilterState × σ :=
  let map := self.enabled
  if map.is_enabled filter then
    (self, f s)
  else
    ({ self with enabled := map.set filter true }, s)

/-- Embedding of `FilterState::and`: the second, short-circuiting
refinement pass. Rust's `map.is_enabled(filter) && f()` short-circuits,
so `f` is only run when the bit is clear; the combined decision is
written back into the map and returned. -/
def FilterState.and {σ : Type} (self : FilterState) (filter : FilterId)
    (f : σ → σ × Bool) (s : σ) : FilterState × σ × Bool :=
  let map := self.enabled
  if map.is_enabled filter then
    let fr := f s
    ({ self with enabled := map.set filter fr.2 }, fr.1, fr.2)
  else
    ({ self with enabled := map.set filter false }, s, false)

/-- Embedding of `Filtered::enabled`. The own filter's verdict on the
metadata is the abstract boolean `filter_enabled` (the `Filter` is a
trait parameter in the source); the wrapped subscriber's `enabled` is the
state transformer `subscriber_enabled`. Returns the updated thread-local
state, the subscriber-call state, and the boolean reported upward. -/
def Filtered.enabled {σ : Type} (id : FilterId) (filter_enabled : Bool)
    (subscriber_enabled : σ → σ × Bool) (st : FilterState) (s : σ) :
    FilterState × σ × Bool :=
  let st := st.set id filter_enabled
  if filter_enabled then
    let r := subscriber_enabled s
    (st, r.1, r.2)
  else
    (st, s, true)

/-- Embedding of `Filtered::register_callsite`. The own filter's
`callsite_enabled` verdict is the abstract `callsite_interest`; the
wrapped subscriber's `register_callsite` is a state transformer that also
returns an `Interest`, which the source discards (only the side effect is
kept). -/
def Filtered.register_callsite {σ : Type} (callsite_interest : Interest)
    (subscriber_register : σ → σ × Interest) (st : FilterState) (s : σ) :
    FilterState × σ × Interest :=
  let s := if !callsite_interest.is_never then (subscriber_register s).1 else s
  let st := st.add_interest callsite_interest
  (st, s, Interest.always)

/-- Apply a sequence of `FilterMap::set` calls, oldest first. -/
def FilterMap.set_all (self : FilterMap) (ops : List (FilterId × Bool)) : FilterMap :=
  ops.foldl (fun m op => m.set op.1 op.2) self

/-- The `enabled` argument of the most recent `set` call for `id` in a
sequence of calls (oldest first), if any. -/
def last_decision (ops : List (FilterId × Bool)) (id : FilterId) : Option Bool :=
  match ops with
  | [] => none
  | op :: rest =>
    match last_decision rest id with
    | some b => some b
    | none => if op.1 = id then some op.2 else none

/-- Apply a sequence of `FilterState::add_interest` calls, oldest first. -/
def FilterState.add_all (self : FilterState) (l : List Interest) : FilterState :=
  l.foldl FilterState.add_interest self

/-! ### Bit-level helper lemmas -/

theorem shiftLeft_one_eq (i : Nat) : 1 <<< i = 2 ^ i := by
  simp [Nat.shiftLeft_eq]

theorem single_bit_lt (i : Nat) (hi : i < 64) : 1 <<< i < 2 ^ 64 := by
  rw [shiftLeft_one_eq]
  exact Nat.pow_lt_pow_right (by omega) hi

theorem single_bit_ne_max (i : Nat) : 1 <<< i ≠ U64_MAX := by
  rw [shiftLeft_one_eq]
  intro h
  have h0 : (2 ^ i).testBit 0 = U64_MAX.testBit 0 := by rw [h]
  have h1 : (2 ^ i).testBit 1 = U64_MAX.testBit 1 := by rw [h]
  rcases Nat.eq_zero_or_pos i with hz | hp
  · subst hz
    rw [Nat.testBit_two_pow_of_ne (by omega)] at h1
    have : U64_MAX.testBit 1 = true := by
      show ((2 : Nat) ^ 64 - 1).testBit 1 = true
      rw [Nat.testBit_two_pow_sub_one]
      decide
    rw [this] at h1
    exact Bool.false_ne_true h1
  · rw [Nat.testBit_two_pow_of_ne (by omega)] at h0
    have : U64_MAX.testBit 0 = true := by
      show ((2 : Nat) ^ 64 - 1).testBit 0 = true
      rw [Nat.testBit_two_pow_sub_one]
      decide
    rw [this] at h0
    exact Bool.false_ne_true h0

theorem testBit_max (j : Nat) : U64_MAX.testBit j = decide (j < 64) := by
  show ((2 : Nat) ^ 64 - 1).testBit j = decide (j < 64)
  exact Nat.testBit_two_pow_sub_one 64 j

theorem testBit_high (bits j : Nat) (hb : bits < 2 ^ 64) (hj : 64 ≤ j) :
    bits.testBit j = false :=
  Nat.testBit_lt_two_pow (lt_of_lt_of_le hb (Nat.pow_le_pow_right (by omega) hj))

/-- How one `set` call with a single-bit mask changes each bit of a
well-formed map. -/
theorem set_single_testBit (bits i j : Nat) (e : Bool) (hi : i < 64)
    (hb : bits < 2 ^ 64) :
    ((FilterMap.set ⟨bits⟩ ⟨1 <<< i⟩ e).bits).testBit j =
      if j = i then !e else bits.testBit j := by
  unfold FilterMap.set
  rw [if_neg (by simpa using single_bit_ne_max i)]
  cases e with
  | true =>
    rw [if_pos rfl]
    show (bits &&& (U64_MAX ^^^ 1 <<< i)).testBit j = _
    rw [Nat.testBit_and, Nat.testBit_xor, testBit_max, shiftLeft_one_eq,
      Nat.testBit_two_pow]
    by_cases hji : j = i
    · subst hji
      rw [if_pos rfl, decide_eq_true hi, decide_eq_true rfl]
      simp
    · rw [if_neg hji, decide_eq_false (p := i = j) (fun h => hji h.symm)]
      by_cases hj64 : j < 64
      · rw [decide_eq_true hj64]
        simp
      · rw [decide_eq_false hj64, testBit_high bits j hb (by omega)]
        simp
  | false =>
    rw [if_neg Bool.false_ne_true]
    show (bits ||| 1 <<< i).testBit j = _
    rw [Nat.testBit_or, shiftLeft_one_eq, Nat.testBit_two_pow]
    by_cases hji : j = i
    · subst hji
      rw [if_pos rfl, decide_eq_true rfl]
      simp
    · rw [if_neg hji, decide_eq_false (fun h => hji h.symm)]
      simp

/-- A `set` call keeps the map's bits below `2 ^ 64` when the mask is
below `2 ^ 64`. -/
theorem set_bits_lt (bits : Nat) (id : FilterId) (e : Bool)
    (hb : bits < 2 ^ 64) (hm : id.mask < 2 ^ 64) :
    (FilterMap.set ⟨bits⟩ id e).bits < 2 ^ 64 := by
  unfold FilterMap.set
  split
  · exact hb
  · split
    · exact lt_of_le_of_lt Nat.and_le_left hb
    · exact Nat.or_lt_two_pow hb hm

/-- The `is_enabled` query on a single-bit mask reads exactly that bit. -/
theorem is_enabled_single (bits i : Nat) :
    FilterMap.is_enabled ⟨bits⟩ ⟨1 <<< i⟩ = !bits.testBit i := by
  unfold FilterMap.is_enabled
  rw [shiftLeft_one_eq, Nat.and_two_pow]
  cases h : bits.testBit i with
  | true =>
    simp only [Bool.toNat_true, Nat.one_mul, Bool.not_true]
    simpa using Nat.pos_pow_of_pos i (by omega) |>.ne.symm
  | false =>
    simp

theorem is_enabled_single_of_set_same (bits i : Nat) (e : Bool) (hi : i < 64)
    (hb : bits < 2 ^ 64) :
    FilterMap.is_enabled (FilterMap.set ⟨bits⟩ ⟨1 <<< i⟩ e) ⟨1 <<< i⟩ = e := by
  have hset := set_single_testBit bits i i e hi hb
  rcases hs : FilterMap.set ⟨bits⟩ ⟨1 <<< i⟩ e with ⟨bits'⟩
  rw [hs] at hset
  rw [is_enabled_single, hset]
  simp

theorem is_enabled_single_of_set_other (bits i k : Nat) (e : Bool)
    (hk : k < 64) (hki : k ≠ i) (hb : bits < 2 ^ 64) :
    FilterMap.is_enabled (FilterMap.set ⟨bits⟩ ⟨1 <<< k⟩ e) ⟨1 <<< i⟩ =
      FilterMap.is_enabled ⟨bits⟩ ⟨1 <<< i⟩ := by
  have hset := set_single_testBit bits k i e hk hb
  rcases hs : FilterMap.set ⟨bits⟩ ⟨1 <<< k⟩ e with ⟨bits'⟩
  rw [hs] at hset
  rw [is_enabled_single, is_enabled_single, hset, if_neg (Ne.symm hki)]

/-! ### Claim theorems -/

/-- C1: `Filtered::enabled` records its own filter's boolean into the
thread-local state via `set(id, enabled)`; if the filter enabled the
metadata it returns the wrapped subscriber's own answer (consulting it),
and if the filter disabled it, it does not consult the wrapped subscriber
and still returns `true` upward — so a `false` from the filter never makes
`Filtered::enabled` return `false`. -/
theorem C1_filtered_enabled {σ : Type} (id : FilterId)
    (subscriber_enabled : σ → σ × Bool) (st : FilterState) (s : σ) :
    Filtered.enabled id true subscriber_enabled st s =
      (st.set id true, (subscriber_enabled s).1, (subscriber_enabled s).2) ∧
    Filtered.enabled id false subscriber_enabled st s =
      (st.set id false, s, true) := by
  constructor <;> rfl

/-- C3: `Filtered::register_callsite` always returns the ALWAYS interest
upward, records the filter's true interest via `add_interest`, forwards
the registration to the wrapped subscriber exactly when the filter's
interest is not NEVER, and discards the subscriber's returned interest. -/
theorem C3_filtered_register_callsite {σ : Type}
    (subscriber_register : σ → σ × Interest) (st : FilterState) (s : σ) :
    (∀ interest : Interest,
      (Filtered.register_callsite interest subscriber_register st s).2.2 =
        Interest.always) ∧
    (∀ interest : Interest,
      (Filtered.register_callsite interest subscriber_register st s).1 =
        st.add_interest interest) ∧
    (Filtered.register_callsite Interest.never subscriber_register st s).2.1 = s ∧
    (Filtered.register_callsite Interest.always subscriber_register st s).2.1 =
      (subscriber_register s).1 ∧
    (Filtered.register_callsite Interest.sometimes subscriber_register st s).2.1 =
      (subscriber_register s).1 := by
  refine ⟨fun interest => rfl, fun interest => rfl, rfl, rfl, rfl⟩

/-- C6: the union on filter ids is idempotent; it is commutative whenever
neither operand is the DISABLED sentinel; the sentinel is absorbed as the
receiver (`union(DISABLED, x) = x`); and `union(x, DISABLED) = x` fails
for some `x`. -/
theorem C6_union_algebra :
    (∀ x : FilterId, x.and x = x) ∧
    (∀ a b : FilterId, a ≠ FilterId.disabled → b ≠ FilterId.disabled →
      a.and b = b.and a) ∧
    (∀ x : FilterId, FilterId.disabled.and x = x) ∧
    (∃ x : FilterId, x.and FilterId.disabled ≠ x) := by
  refine ⟨fun x => ?_, fun a b ha hb => ?_, fun x => ?_, ⟨⟨0⟩, ?_⟩⟩
  · unfold FilterId.and
    split <;> simp [Nat.or_self]
  · have ha' : a.mask ≠ FilterId.disabled.mask := by
      intro h
      exact ha (by cases a; cases h; rfl)
    have hb' : b.mask ≠ FilterId.disabled.mask := by
      intro h
      exact hb (by cases b; cases h; rfl)
    unfold FilterId.and
    rw [if_neg ha', if_neg hb', Nat.lor_comm]
  · unfold FilterId.and
    rw [if_pos rfl]
  · unfold FilterId.and
    simp only [FilterId.disabled]
    intro h
    have : (0 : Nat) ||| U64_MAX = 0 := by
      have := congrArg FilterId.mask h
      simpa [U64_MAX] using this
    rw [Nat.zero_or] at this
    exact absurd this (by decide)

/-- C7: `FilterState::and` returns the conjunction of the existing
recorded decision for the id with the predicate's result, does not
evaluate the predicate when the recorded decision is already rejected
(the state component stays `s`), and writes the combined result back into
the map as the id's new decision. -/
theorem C7_filter_state_and {σ : Type} (st : FilterState) (id : FilterId)
    (f : σ → σ × Bool) (s : σ) :
    (FilterState.and st id f s).2.2 = (st.enabled.is_enabled id && (f s).2) ∧
    (FilterState.and st id f s).2.1 =
      (if st.enabled.is_enabled id then (f s).1 else s) ∧
    (FilterState.and st id f s).1.enabled =
      st.enabled.set id (st.enabled.is_enabled id && (f s).2) := by
  unfold FilterState.and
  cases h : st.enabled.is_enabled id <;> simp [h]

/-- Single-bit ids are exactly the masks of the form `1 <<< k`, `k < 64`. -/
theorem single_bit_spec (id : FilterId) (h : id.single_bit = true) :
    ∃ k, k < 64 ∧ id.mask = 1 <<< k := by
  unfold FilterId.single_bit at h
  rw [List.any_eq_true] at h
  obtain ⟨k, hk, he⟩ := h
  exact ⟨k, List.mem_range.mp hk, eq_of_beq he⟩

theorem shiftLeft_one_injective (k i : Nat) (h : (1 : Nat) <<< k = 1 <<< i) :
    k = i := by
  rw [shiftLeft_one_eq, shiftLeft_one_eq] at h
  exact Nat.pow_right_injective (by omega) h

/-- After a sequence of `set` calls with single-bit ids, `is_enabled` on a
single-bit id reads the most recent decision for that id, or the original
map's bit when no call used that id. -/
theorem set_all_single (ops : List (FilterId × Bool)) (m : FilterMap) (i : Nat)
    (hi : i < 64) (hb : m.bits < 2 ^ 64)
    (hops : ∀ op ∈ ops, op.1.single_bit = true) :
    (m.set_all ops).is_enabled ⟨1 <<< i⟩ =
      (match last_decision ops ⟨1 <<< i⟩ with
        | some b => b
        | none => m.is_enabled ⟨1 <<< i⟩) := by
  induction ops generalizing m with
  | nil => rfl
  | cons op rest ih =>
    obtain ⟨⟨opmask⟩, ope⟩ := op
    obtain ⟨bits⟩ := m
    obtain ⟨k, hk, hmask⟩ := single_bit_spec ⟨opmask⟩
      (hops _ (List.mem_cons_self _ rest))
    have hmask' : opmask = 1 <<< k := hmask
    subst hmask'
    have hlt : (FilterMap.set ⟨bits⟩ ⟨1 <<< k⟩ ope).bits < 2 ^ 64 :=
      set_bits_lt bits ⟨1 <<< k⟩ ope hb (single_bit_lt k hk)
    have hstep : FilterMap.set_all ⟨bits⟩ ((⟨1 <<< k⟩, ope) :: rest) =
        FilterMap.set_all (FilterMap.set ⟨bits⟩ ⟨1 <<< k⟩ ope) rest := rfl
    rw [hstep, ih (FilterMap.set ⟨bits⟩ ⟨1 <<< k⟩ ope) hlt
      (fun p hp => hops p (List.mem_cons_of_mem _ hp))]
    cases hd : last_decision rest ⟨1 <<< i⟩ with
    | some b =>
      have hlast : last_decision ((⟨1 <<< k⟩, ope) :: rest) ⟨1 <<< i⟩ = some b := by
        unfold last_decision
        rw [hd]
      rw [hlast]
    | none =>
      by_cases hki : k = i
      · subst hki
        have hlast : last_decision ((⟨1 <<< k⟩, ope) :: rest) ⟨1 <<< k⟩ =
            some ope := by
          unfold last_decision
          rw [hd, if_pos rfl]
        rw [hlast]
        exact is_enabled_single_of_set_same bits k ope hk hb
      · have hlast : last_decision ((⟨1 <<< k⟩, ope) :: rest) ⟨1 <<< i⟩ = none := by
          unfold last_decision
          rw [hd, if_neg (fun hcon =>
            hki (shiftLeft_one_injective k i (congrArg FilterId.mask hcon)))]
        rw [hlast]
        exact is_enabled_single_of_set_other bits i k ope hk hki hb

/-- C2: for a single-bit id, `did_enable(id, f)` runs the continuation
exactly once when the id's bit is clear at call time (returning the state
unchanged together with the continuation's effect), skips the
continuation entirely when the bit is set (instead clearing the bit), and
in either case leaves the id's bit clear afterward. -/
theorem C2_did_enable {σ : Type} (st : FilterState) (i : Nat) (f : σ → σ)
    (s : σ) (hi : i < 64) (hb : st.enabled.bits < 2 ^ 64) :
    (st.enabled.is_enabled ⟨1 <<< i⟩ = true →
      FilterState.did_enable st ⟨1 <<< i⟩ f s = (st, f s)) ∧
    (st.enabled.is_enabled ⟨1 <<< i⟩ = false →
      (FilterState.did_enable st ⟨1 <<< i⟩ f s).2 = s ∧
      (FilterState.did_enable st ⟨1 <<< i⟩ f s).1.enabled =
        st.enabled.set ⟨1 <<< i⟩ true) ∧
    (FilterState.did_enable st ⟨1 <<< i⟩ f s).1.enabled.is_enabled
      ⟨1 <<< i⟩ = true := by
  obtain ⟨⟨bits⟩, intr⟩ := st
  have hb' : bits < 2 ^ 64 := hb
  cases h : FilterMap.is_enabled ⟨bits⟩ ⟨1 <<< i⟩ with
  | true =>
    refine ⟨fun _ => by simp [FilterState.did_enable, h], by simp [h], ?_⟩
    simp [FilterState.did_enable, h]
  | false =>
    refine ⟨by simp [h],
      fun _ => ⟨by simp [FilterState.did_enable, h], by simp [FilterState.did_enable, h]⟩, ?_⟩
    have hres : (FilterState.did_enable (⟨⟨bits⟩, intr⟩ : FilterState)
        ⟨1 <<< i⟩ f s).1.enabled = FilterMap.set ⟨bits⟩ ⟨1 <<< i⟩ true := by
      simp [FilterState.did_enable, h]
    rw [hres]
    exact is_enabled_single_of_set_same bits i true hi hb'

/-- Witness for C2 at a concrete input: bit 3 is set in the map, so the
continuation is skipped and the bit is cleared. -/
theorem C2_did_enable_witness :
    ((3 : Nat) < 64 ∧ (FilterState.mk ⟨8⟩ none).enabled.bits < 2 ^ 64) ∧
    (((FilterState.mk ⟨8⟩ none).enabled.is_enabled ⟨1 <<< 3⟩ = true →
        FilterState.did_enable (FilterState.mk ⟨8⟩ none) ⟨1 <<< 3⟩ Nat.succ 0 =
          (FilterState.mk ⟨8⟩ none, Nat.succ 0)) ∧
      ((FilterState.mk ⟨8⟩ none).enabled.is_enabled ⟨1 <<< 3⟩ = false →
        (FilterState.did_enable (FilterState.mk ⟨8⟩ none) ⟨1 <<< 3⟩ Nat.succ 0).2 = 0 ∧
        (FilterState.did_enable (FilterState.mk ⟨8⟩ none) ⟨1 <<< 3⟩ Nat.succ 0).1.enabled =
          (FilterState.mk ⟨8⟩ none).enabled.set ⟨1 <<< 3⟩ true) ∧
      (FilterState.did_enable (FilterState.mk ⟨8⟩ none) ⟨1 <<< 3⟩
          Nat.succ 0).1.enabled.is_enabled ⟨1 <<< 3⟩ = true) :=
  ⟨⟨by decide, by decide⟩,
    C2_did_enable (FilterState.mk ⟨8⟩ none) 3 Nat.succ 0 (by decide) (by decide)⟩

/-- C4: a `set` call with the DISABLED sentinel leaves the map unchanged;
a `set` call with a single-bit id clears the bit when enabled and sets it
when disabled, with `is_enabled` reading the bit's complement; and after
any sequence of `set` calls with single-bit ids, `is_enabled(id)` returns
the `enabled` value of the most recent call for that id. -/
theorem C4_set_tracks_latest :
    (∀ (m : FilterMap) (e : Bool), m.set FilterId.disabled e = m) ∧
    (∀ (bits i : Nat), i < 64 → bits < 2 ^ 64 →
      (FilterMap.set ⟨bits⟩ ⟨1 <<< i⟩ true).bits.testBit i = false ∧
      (FilterMap.set ⟨bits⟩ ⟨1 <<< i⟩ false).bits.testBit i = true ∧
      FilterMap.is_enabled ⟨bits⟩ ⟨1 <<< i⟩ = !bits.testBit i) ∧
    (∀ (m : FilterMap) (ops : List (FilterId × Bool)) (i : Nat) (b : Bool),
      m.bits < 2 ^ 64 → i < 64 →
      (∀ op ∈ ops, op.1.single_bit = true) →
      last_decision ops ⟨1 <<< i⟩ = some b →
      (m.set_all ops).is_enabled ⟨1 <<< i⟩ = b) := by
  refine ⟨fun m e => ?_, fun bits i hi hb => ⟨?_, ?_, ?_⟩,
    fun m ops i b hb hi hops hlast => ?_⟩
  · unfold FilterMap.set
    rw [if_pos (show FilterId.disabled.mask = U64_MAX from rfl)]
  · rw [set_single_testBit bits i i true hi hb, if_pos rfl]
    rfl
  · rw [set_single_testBit bits i i false hi hb, if_pos rfl]
    rfl
  · exact is_enabled_single bits i
  · rw [set_all_single ops m i hi hb hops, hlast]

/-- Witness for C4 at a concrete input: the most recent call for bit 2 in
the sequence has enabled = true, so the bit reads enabled. -/
theorem C4_set_tracks_latest_witness :
    ((FilterMap.mk 0).bits < 2 ^ 64 ∧ (2 : Nat) < 64 ∧
      (∀ op ∈ [((⟨1 <<< 2⟩ : FilterId), false), ((⟨1 <<< 2⟩ : FilterId), true)],
        op.1.single_bit = true) ∧
      last_decision [((⟨1 <<< 2⟩ : FilterId), false), ((⟨1 <<< 2⟩ : FilterId), true)]
        ⟨1 <<< 2⟩ = some true) ∧
    (FilterMap.set_all ⟨0⟩
      [((⟨1 <<< 2⟩ : FilterId), false), ((⟨1 <<< 2⟩ : FilterId), true)]).is_enabled
      ⟨1 <<< 2⟩ = true :=
  ⟨⟨by decide, by decide, by decide, by decide⟩,
    C4_set_tracks_latest.2.2 ⟨0⟩
      [((⟨1 <<< 2⟩ : FilterId), false), ((⟨1 <<< 2⟩ : FilterId), true)] 2 true
      (by decide) (by decide) (by decide) (by decide)⟩

/-- Combining one interest into an already-recorded aggregate keeps equal
values and collapses any disagreement to SOMETIMES. -/
theorem add_interest_some (st : FilterState) (curr i : Interest)
    (h : st.interest = some curr) :
    (st.add_interest i).interest =
      some (if curr = i then curr else Interest.sometimes) := by
  obtain ⟨en, intr⟩ := st
  have h' : intr = some curr := h
  subst h'
  cases curr <;> cases i <;>
    simp [FilterState.add_interest, Interest.is_always, Interest.is_never]

/-- A run of `add_interest` calls all agreeing with the recorded aggregate
keeps the aggregate unchanged. -/
theorem add_all_keeps (l : List Interest) (st : FilterState) (i : Interest)
    (h : st.interest = some i) (hall : ∀ j ∈ l, j = i) :
    (st.add_all l).interest = some i := by
  induction l generalizing st with
  | nil => exact h
  | cons j rest ih =>
    have hj : j = i := hall j (List.mem_cons_self j rest)
    subst hj
    have hstep : (st.add_interest j).interest = some j := by
      rw [add_interest_some st j j h, if_pos rfl]
    exact ih (st.add_interest j) hstep (fun p hp => hall p (List.mem_cons_of_mem _ hp))

/-- Once the recorded aggregate is SOMETIMES it stays SOMETIMES under any
further `add_interest` calls. -/
theorem add_all_sometimes (l : List Interest) (st : FilterState)
    (h : st.interest = some Interest.sometimes) :
    (st.add_all l).interest = some Interest.sometimes := by
  induction l generalizing st with
  | nil => exact h
  | cons j rest ih =>
    have hstep : (st.add_interest j).interest = some Interest.sometimes := by
      rw [add_interest_some st Interest.sometimes j h]
      cases j <;> rfl
    exact ih (st.add_interest j) hstep

/-- C5: within one interest pass (starting from no recorded interest) the
aggregate equals the first recorded value as long as every recorded value
is identical to it; one `add_interest` call that disagrees with the
current aggregate collapses it to SOMETIMES (equal values are kept); and
once the aggregate is SOMETIMES it remains SOMETIMES for every subsequent
`add_interest` call of the pass. -/
theorem C5_add_interest_aggregation :
    (∀ (st : FilterState) (i : Interest) (l : List Interest),
      st.interest = none → (∀ j ∈ l, j = i) →
      (st.add_all (i :: l)).interest = some i) ∧
    (∀ (st : FilterState) (curr i : Interest),
      st.interest = some curr →
      (st.add_interest i).interest =
        some (if curr = i then curr else Interest.sometimes)) ∧
    (∀ (st : FilterState) (l : List Interest),
      st.interest = some Interest.sometimes →
      (st.add_all l).interest = some Interest.sometimes) := by
  refine ⟨fun st i l hnone hall => ?_, add_interest_some,
    fun st l h => add_all_sometimes l st h⟩
  have hfirst : (st.add_interest i).interest = some i := by
    obtain ⟨en, intr⟩ := st
    have h' : intr = none := hnone
    subst h'
    rfl
  exact add_all_keeps l (st.add_interest i) i hfirst hall

/-- Witness for C5 at concrete inputs: a pass recording ALWAYS twice
aggregates to ALWAYS; a NEVER after an ALWAYS collapses to SOMETIMES; and
SOMETIMES stays SOMETIMES under further calls. -/
theorem C5_add_interest_aggregation_witness :
    ((FilterState.mk ⟨0⟩ none).interest = none ∧
      (∀ j ∈ [Interest.always], j = Interest.always) ∧
      ((FilterState.mk ⟨0⟩ none).add_all
        (Interest.always :: [Interest.always])).interest = some Interest.always) ∧
    ((FilterState.mk ⟨0⟩ (some Interest.always)).interest = some Interest.always ∧
      ((FilterState.mk ⟨0⟩ (some Interest.always)).add_interest
        Interest.never).interest =
        some (if Interest.always = Interest.never then Interest.always
          else Interest.sometimes)) ∧
    ((FilterState.mk ⟨0⟩ (some Interest.sometimes)).interest =
        some Interest.sometimes ∧
      ((FilterState.mk ⟨0⟩ (some Interest.sometimes)).add_all
        [Interest.always, Interest.never]).interest = some Interest.sometimes) :=
  ⟨⟨by decide, by decide,
      C5_add_interest_aggregation.1 (FilterState.mk ⟨0⟩ none) Interest.always
        [Interest.always] (by decide) (by decide)⟩,
    ⟨by decide,
      C5_add_interest_aggregation.2.1 (FilterState.mk ⟨0⟩ (some Interest.always))
        Interest.always Interest.never (by decide)⟩,
    ⟨by decide,
      C5_add_interest_aggregation.2.2 (FilterState.mk ⟨0⟩ (some Interest.sometimes))
        [Interest.always, Interest.never] (by decide)⟩⟩

/-- C8: `any_enabled` is false exactly when all 64 bits of the map are
set; in particular any map with exactly 63 of the 64 bits set reads as
still having an enabled filter. -/
theorem C8_any_enabled_boundary (bits : Nat) (hb : bits < 2 ^ 64) :
    (FilterMap.any_enabled ⟨bits⟩ = false ↔ ∀ i < 64, bits.testBit i = true) ∧
    (((Finset.range 64).filter (fun i => bits.testBit i = true)).card = 63 →
      FilterMap.any_enabled ⟨bits⟩ = true) := by
  have hmain : FilterMap.any_enabled ⟨bits⟩ = false ↔
      ∀ i < 64, bits.testBit i = true := by
    unfold FilterMap.any_enabled
    rw [bne_eq_false_iff_eq]
    constructor
    · intro h i hi
      have h' : bits = U64_MAX := h
      rw [h', testBit_max, decide_eq_true hi]
    · intro h
      show bits = U64_MAX
      refine Nat.eq_of_testBit_eq fun j => ?_
      by_cases hj : j < 64
      · rw [h j hj, testBit_max, decide_eq_true hj]
      · rw [testBit_high bits j hb (by omega), testBit_max,
          decide_eq_false hj]
  refine ⟨hmain, fun hcard => ?_⟩
  cases ha : FilterMap.any_enabled ⟨bits⟩ with
  | true => rfl
  | false =>
    have hall := hmain.mp ha
    have hfull : (Finset.range 64).filter (fun i => bits.testBit i = true) =
        Finset.range 64 :=
      Finset.filter_true_of_mem (fun i hi => hall i (Finset.mem_range.mp hi))
    rw [hfull, Finset.card_range] at hcard
    omega

/-- Witness for C8 at a concrete input: the map with every bit except bit
0 set has 63 of 64 bits set and still reports a filter enabled. -/
theorem C8_any_enabled_boundary_witness :
    ((2 ^ 64 - 2 : Nat) < 2 ^ 64) ∧
    ((FilterMap.any_enabled ⟨2 ^ 64 - 2⟩ = false ↔
        ∀ i < 64, (2 ^ 64 - 2 : Nat).testBit i = true) ∧
      (((Finset.range 64).filter
          (fun i => (2 ^ 64 - 2 : Nat).testBit i = true)).card = 63 →
        FilterMap.any_enabled ⟨2 ^ 64 - 2⟩ = true)) :=
  ⟨by decide, C8_any_enabled_boundary (2 ^ 64 - 2) (by decide)⟩

/-- C9: for every index below 64, `FilterId::new` yields the mask with
exactly bit `index` set (the value `1 <<< index`); for every index of 64
or more the assertion fails and no id is produced. -/
theorem C9_filter_id_new :
    (∀ i : Nat, i < 64 →
      FilterId.new i = some ⟨1 <<< i⟩ ∧
      ∀ j : Nat, ((1 <<< i : Nat).testBit j = true ↔ j = i)) ∧
    (∀ i : Nat, 64 ≤ i → FilterId.new i = none) := by
  constructor
  · intro i hi
    refine ⟨by unfold FilterId.new; rw [if_pos hi], fun j => ?_⟩
    rw [shiftLeft_one_eq, Nat.testBit_two_pow]
    constructor
    · intro h
      exact (of_decide_eq_true h).symm
    · intro h
      subst h
      exact decide_eq_true rfl
  · intro i hi
    unfold FilterId.new
    rw [if_neg (by omega)]

/-- Witness for C9 at concrete inputs: index 5 yields the single-bit mask
for bit 5, while index 64 is rejected. -/
theorem C9_filter_id_new_witness :
    ((5 : Nat) < 64 ∧
      (FilterId.new 5 = some ⟨1 <<< 5⟩ ∧
        ∀ j : Nat, ((1 <<< 5 : Nat).testBit j = true ↔ j = 5))) ∧
    ((64 : Nat) ≤ 64 ∧ FilterId.new 64 = none) :=
  ⟨⟨by decide, C9_filter_id_new.1 5 (by decide)⟩,
    ⟨by decide, C9_filter_id_new.2 64 (by decide)⟩⟩

/-- C10: combining any id (the sentinel included) with DISABLED as the
second argument yields DISABLED, and under the DISABLED mask a map reads
as enabled only when no bit at all is set — any recorded rejection makes
it read as disabled. -/
theorem C10_union_into_disabled (x : FilterId) (bits : Nat)
    (hx : x.mask < 2 ^ 64) (hb : bits < 2 ^ 64) :
    x.and FilterId.disabled = FilterId.disabled ∧
    (FilterMap.is_enabled ⟨bits⟩ FilterId.disabled = true ↔ bits = 0) := by
  constructor
  · unfold FilterId.and
    by_cases hcase : x.mask = FilterId.disabled.mask
    · rw [if_pos hcase]
    · rw [if_neg hcase]
      have : x.mask ||| FilterId.disabled.mask = FilterId.disabled.mask := by
        refine Nat.eq_of_testBit_eq fun j => ?_
        show (x.mask ||| U64_MAX).testBit j = U64_MAX.testBit j
        rw [Nat.testBit_or, testBit_max]
        by_cases hj : j < 64
        · rw [decide_eq_true hj, Bool.or_true]
        · rw [decide_eq_false hj, testBit_high x.mask j hx (by omega),
            Bool.or_false]
      rw [this]
  · unfold FilterMap.is_enabled
    have : bits &&& FilterId.disabled.mask = bits := by
      refine Nat.eq_of_testBit_eq fun j => ?_
      show (bits &&& U64_MAX).testBit j = bits.testBit j
      rw [Nat.testBit_and, testBit_max]
      by_cases hj : j < 64
      · rw [decide_eq_true hj, Bool.and_true]
      · rw [decide_eq_false hj, testBit_high bits j hb (by omega),
          Bool.false_and]
    rw [this]
    exact beq_iff_eq

/-- Witness for C6 at concrete inputs: two distinct non-sentinel ids
commute under the union. -/
theorem C6_union_algebra_witness :
    ((⟨1⟩ : FilterId) ≠ FilterId.disabled ∧ (⟨2⟩ : FilterId) ≠ FilterId.disabled) ∧
    (⟨1⟩ : FilterId).and ⟨2⟩ = (⟨2⟩ : FilterId).and ⟨1⟩ :=
  ⟨⟨by decide, by decide⟩,
    C6_union_algebra.2.1 ⟨1⟩ ⟨2⟩ (by decide) (by decide)⟩

/-- Witness for C10 at concrete inputs: the single-bit id for bit 0
combined with DISABLED collapses to DISABLED, and the map with bit 0 set
reads as disabled under the sentinel mask. -/
theorem C10_union_into_disabled_witness :
    ((⟨1⟩ : FilterId).mask < 2 ^ 64 ∧ (1 : Nat) < 2 ^ 64) ∧
    ((⟨1⟩ : FilterId).and FilterId.disabled = FilterId.disabled ∧
      (FilterMap.is_enabled ⟨1⟩ FilterId.disabled = true ↔ (1 : Nat) = 0)) :=
  ⟨⟨by decide, by decide⟩,
    C10_union_into_disabled ⟨1⟩ 1 (by decide) (by decide)⟩
